import Mathlib

/-
  Verification of the TaxBit export record component (`src/lib.rs` of
  winksaville/taxbit-export-rec).

  The record type, its equality, ordering, asset classification, and the
  row-level (de)serialization rules are embedded shallowly.  External
  collaborators (the `taxbitrec` transaction-type enumeration, the decimal
  numeric type, the UTC-timestamp codec) are modelled from the spec: the
  decimal type is modelled as `ℚ` (exact numeric equality/ordering), the
  timestamp as milliseconds since the Unix epoch with a strict
  `YYYY-MM-DDTHH:MM:SS.mmmZ` textual form.

  Rust panics are modelled by `none` / partial results; recoverable
  format errors by `Except String`.
-/

namespace TaxBitExport

/-- Modelled from the spec: the `TaxBitRecType` enumeration of the external
`taxbitrec` crate, with the declared variant order taken from the spec's
listing (Buy, Sale, Trade, Income, Expense, TransferIn, TransferOut,
GiftSent, GiftReceived, Unknown, Invalid). -/
inductive TaxBitRecType where
  | Buy
  | Sale
  | Trade
  | Income
  | Expense
  | TransferIn
  | TransferOut
  | GiftSent
  | GiftReceived
  | Unknown
  | Invalid
deriving DecidableEq

/-- Ordinal of a variant in the declared order (used for the enumeration's
derived total order). -/
def TaxBitRecType.ordinal : TaxBitRecType → Nat
  | .Buy => 0
  | .Sale => 1
  | .Trade => 2
  | .Income => 3
  | .Expense => 4
  | .TransferIn => 5
  | .TransferOut => 6
  | .GiftSent => 7
  | .GiftReceived => 8
  | .Unknown => 9
  | .Invalid => 10

/-- Three-way comparison on `Nat`. -/
def cmpNat (a b : Nat) : Ordering :=
  if a < b then .lt else if a = b then .eq else .gt

/-- Three-way comparison on `Int` (models `i64::cmp`). -/
def cmpInt (a b : Int) : Ordering :=
  if a < b then .lt else if a = b then .eq else .gt

/-- Three-way comparison of characters by code point. -/
def cmpChar (a b : Char) : Ordering := cmpNat a.toNat b.toNat

/-- Lexicographic three-way comparison of character lists. -/
def cmpCharList : List Char → List Char → Ordering
  | [], [] => .eq
  | [], _ :: _ => .lt
  | _ :: _, [] => .gt
  | a :: as, b :: bs =>
    match cmpChar a b with
    | .eq => cmpCharList as bs
    | o => o

/-- Three-way comparison on `String` (models Rust's lexicographic
`String::cmp`; code-point order coincides with UTF-8 byte order). -/
def cmpStr (a b : String) : Ordering := cmpCharList a.data b.data

/-- Three-way comparison on `ℚ` (models the external decimal type's total
numeric order). -/
def cmpRat (a b : ℚ) : Ordering :=
  if a < b then .lt else if a = b then .eq else .gt

/-- Three-way comparison on `Bool`, `false < true` (models `bool::cmp`). -/
def cmpBool : Bool → Bool → Ordering
  | false, false => .eq
  | false, true => .lt
  | true, false => .gt
  | true, true => .eq

/-- Three-way comparison on the transaction-type enumeration, by declared
variant order. -/
def cmpType (a b : TaxBitRecType) : Ordering :=
  cmpNat a.ordinal b.ordinal

/-- Models `i64::partial_cmp` (total, never `none`). -/
def pcmpInt (a b : Int) : Option Ordering := some (cmpInt a b)

/-- Models `String::partial_cmp` (total, never `none`). -/
def pcmpStr (a b : String) : Option Ordering := some (cmpStr a b)

/-- Models `bool::partial_cmp` (total, never `none`). -/
def pcmpBool (a b : Bool) : Option Ordering := some (cmpBool a b)

/-- Models `TaxBitRecType::partial_cmp` (total, never `none`). -/
def pcmpType (a b : TaxBitRecType) : Option Ordering := some (cmpType a b)

/-- Models `Option<Decimal>::partial_cmp`, i.e. the `PartialOrd` instance
Rust derives for `Option<T>`: `None` is below `Some`, and two `Some`s
compare by the element comparison (total for the decimal type). -/
def pcmpOptRat (a b : Option ℚ) : Option Ordering :=
  match a, b with
  | none, none => some .eq
  | none, some _ => some .lt
  | some _, none => some .gt
  | some x, some y => some (cmpRat x y)

/-- The record type `TaxBitExportRec` from `src/lib.rs`, field for field.
The decimal type is modelled as `ℚ`. -/
structure TaxBitExportRec where
  time : Int
  type_txs : TaxBitRecType
  received_quantity : Option ℚ
  received_currency : String
  sent_quantity : Option ℚ
  sent_currency : String
  fee_currency : String
  fee_amount : Option ℚ
  market_value : Option ℚ
  source : String
  internal_transfer : Bool
  external_id : String
deriving DecidableEq

/-- `TaxBitExportRec::new` from the source: the all-default record. -/
def TaxBitExportRec.new : TaxBitExportRec where
  time := 0
  type_txs := .Unknown
  received_quantity := none
  received_currency := ""
  sent_quantity := none
  sent_currency := ""
  fee_currency := ""
  fee_amount := none
  market_value := none
  source := ""
  internal_transfer := false
  external_id := ""

/-- `PartialEq::eq` for `TaxBitExportRec` from the source: conjunction of
the twelve field equalities, in the source's order. -/
def TaxBitExportRec.eq (a b : TaxBitExportRec) : Bool :=
  decide (a.time = b.time)
    && decide (a.type_txs = b.type_txs)
    && decide (a.received_currency = b.received_currency)
    && decide (a.sent_currency = b.sent_currency)
    && decide (a.fee_currency = b.fee_currency)
    && decide (a.received_quantity = b.received_quantity)
    && decide (a.sent_quantity = b.sent_quantity)
    && decide (a.fee_amount = b.fee_amount)
    && decide (a.market_value = b.market_value)
    && decide (a.source = b.source)
    && decide (a.internal_transfer = b.internal_transfer)
    && decide (a.external_id = b.external_id)

/-- `TaxBitExportRec::get_asset` from the source, including the branch
structure of the `Invalid` arm exactly as written (note the third branch
tests `fee_currency.is_empty()`, not its negation).  The `Unknown` arm's
`panic!` is modelled by `none`. -/
def TaxBitExportRec.get_asset (r : TaxBitExportRec) : Option String :=
  match r.type_txs with
  | .Expense | .TransferOut | .GiftSent | .Sale => some r.sent_currency
  | .Buy | .TransferIn | .Income | .GiftReceived | .Trade =>
      some r.received_currency
  | .Invalid =>
      if !r.received_currency.isEmpty then some r.received_currency
      else if !r.sent_currency.isEmpty then some r.sent_currency
      else if r.fee_currency.isEmpty then some r.fee_currency
      else some "no-currency-field"
  | .Unknown => none

/-- `PartialOrd::partial_cmp` for `TaxBitExportRec` from the source: a
chain of per-field partial comparisons with early return on the first
non-equal verdict, in the source's field order. -/
def TaxBitExportRec.partial_cmp (a b : TaxBitExportRec) : Option Ordering :=
  match pcmpInt a.time b.time with
  | some .eq =>
    match pcmpType a.type_txs b.type_txs with
    | some .eq =>
      match pcmpStr a.received_currency b.received_currency with
      | some .eq =>
        match pcmpStr a.sent_currency b.sent_currency with
        | some .eq =>
          match pcmpStr a.fee_currency b.fee_currency with
          | some .eq =>
            match pcmpOptRat a.received_quantity b.received_quantity with
            | some .eq =>
              match pcmpOptRat a.sent_quantity b.sent_quantity with
              | some .eq =>
                match pcmpOptRat a.fee_amount b.fee_amount with
                | some .eq =>
                  match pcmpOptRat a.market_value b.market_value with
                  | some .eq =>
                    match pcmpStr a.source b.source with
                    | some .eq =>
                      match pcmpBool a.internal_transfer b.internal_transfer with
                      | some .eq => pcmpStr a.external_id b.external_id
                      | ord => ord
                    | ord => ord
                  | ord => ord
                | ord => ord
              | ord => ord
            | ord => ord
          | ord => ord
        | ord => ord
      | ord => ord
    | ord => ord
  | ord => ord

/-- `Ord::cmp` for `TaxBitExportRec` from the source: unwraps
`partial_cmp`, with the `None` arm's `panic!` modelled by `none`. -/
def TaxBitExportRec.cmp (a b : TaxBitExportRec) : Option Ordering :=
  match a.partial_cmp b with
  | some ord => some ord
  | none => none

/-- The spec's formulation of the ordering algorithm: the per-field
comparisons in the spec's priority sequence. -/
def fieldCmpList (a b : TaxBitExportRec) : List (Option Ordering) :=
  [pcmpInt a.time b.time,
   pcmpType a.type_txs b.type_txs,
   pcmpStr a.received_currency b.received_currency,
   pcmpStr a.sent_currency b.sent_currency,
   pcmpStr a.fee_currency b.fee_currency,
   pcmpOptRat a.received_quantity b.received_quantity,
   pcmpOptRat a.sent_quantity b.sent_quantity,
   pcmpOptRat a.fee_amount b.fee_amount,
   pcmpOptRat a.market_value b.market_value,
   pcmpStr a.source b.source,
   pcmpBool a.internal_transfer b.internal_transfer,
   pcmpStr a.external_id b.external_id]

/-- The spec's "first non-equal comparison wins" rule over a priority
list of field comparisons. -/
def firstNonEq : List (Option Ordering) → Option Ordering
  | [] => some .eq
  | c :: rest =>
    match c with
    | some .eq => firstNonEq rest
    | o => o

/-- The spec's wording of optional-decimal equality: both absent, or both
present with numerically equal values. -/
def optEqSpec (p q : Option ℚ) : Prop :=
  (p = none ∧ q = none) ∨ (∃ x y, p = some x ∧ q = some y ∧ x = y)

/- ----------------------------------------------------------------
   Textual (de)serialization.

   The per-field codecs for timestamps and decimals live in external
   crates (`serde_utc_time_ms`, `rust_decimal`); they are modelled from
   the spec below.  The boolean codec and the row-level schema are from
   the source.
---------------------------------------------------------------- -/

/-- Character of a decimal digit value. -/
def digitChar (d : Nat) : Char := Char.ofNat (48 + d)

/-- Digit value of a character. -/
def charDigit (c : Char) : Nat := c.toNat - 48

/-- Is the character an ASCII digit. -/
def isDigitC (c : Char) : Bool := decide (48 ≤ c.toNat) && decide (c.toNat ≤ 57)

/-- Little-endian base-10 digits of a natural number, with explicit fuel
(callers pass `n` itself, which is always enough). -/
def natDigitsF : Nat → Nat → List Nat
  | 0, _ => []
  | _ + 1, 0 => []
  | f + 1, n => n % 10 :: natDigitsF f (n / 10)

/-- Value of a little-endian digit list. -/
def vLE : List Nat → Nat
  | [] => 0
  | d :: ds => d + 10 * vLE ds

/-- Value of a big-endian digit-character list. -/
def vBE : List Char → Nat
  | [] => 0
  | c :: cs => charDigit c * 10 ^ cs.length + vBE cs

/-- Print a natural number in decimal, no leading zeros (except "0"). -/
def printNat (n : Nat) : List Char :=
  if n = 0 then ['0'] else ((natDigitsF n n).reverse.map digitChar)

/-- Left-pad a digit string with zeros to width `w`. -/
def padZeros (w : Nat) (ds : List Char) : List Char :=
  List.replicate (w - ds.length) '0' ++ ds

/-- Two-digit zero-padded print (for values below 100). -/
def print2 (n : Nat) : List Char := [digitChar (n / 10), digitChar (n % 10)]

/-- Three-digit zero-padded print (for values below 1000). -/
def print3 (n : Nat) : List Char :=
  [digitChar (n / 100), digitChar (n / 10 % 10), digitChar (n % 10)]

/-- Four-digit zero-padded print (for values below 10000). -/
def print4 (n : Nat) : List Char :=
  [digitChar (n / 1000), digitChar (n / 100 % 10), digitChar (n / 10 % 10),
   digitChar (n % 10)]

/-- Proleptic-Gregorian leap-year rule. -/
def isLeap (y : Nat) : Bool :=
  decide (y % 4 = 0) && (decide (y % 100 ≠ 0) || decide (y % 400 = 0))

/-- Days in a calendar year. -/
def daysInYear (y : Nat) : Nat := if isLeap y then 366 else 365

/-- Month lengths of a calendar year. -/
def monthLens (y : Nat) : List Nat :=
  [31, if isLeap y then 29 else 28, 31, 30, 31, 30, 31, 31, 30, 31, 30, 31]

/-- Sum of the first `k` entries of a list. -/
def sumTake : List Nat → Nat → Nat
  | _, 0 => 0
  | [], _ + 1 => 0
  | l :: ls, k + 1 => l + sumTake ls k

/-- Length of month `m` (1-based) of year `y`. -/
def monthLen (y m : Nat) : Nat := (monthLens y).getD (m - 1) 0

/-- Days in the years `1, …, k` of the proleptic Gregorian calendar
(closed form). -/
def yearsDays (k : Nat) : Nat := 365 * k + k / 4 - k / 100 + k / 400

/-- Days between the starts of year `a` and year `a + k` (recursive form,
used to reason about the year scan of the formatter). -/
def segDays (a : Nat) : Nat → Nat
  | 0 => 0
  | k + 1 => daysInYear a + segDays (a + 1) k

/-- Days from 0001-01-01 to the civil date `y-m-d` (1-based month/day). -/
def civilDays (y m d : Nat) : Nat :=
  yearsDays (y - 1) + sumTake (monthLens y) (m - 1) + (d - 1)

/-- Days from 0001-01-01 to 1970-01-01. -/
def epochDays : Nat := 719162

/-- Milliseconds since the Unix epoch of a civil date-time. -/
def timeFromParts (y m d h mi s ms : Nat) : Int :=
  ((civilDays y m d : Int) - epochDays) * 86400000
    + (((h * 60 + mi) * 60 + s) * 1000 + ms)

/-- Validity of the components of a civil date-time. -/
def validParts (y m d h mi s ms : Nat) : Prop :=
  1 ≤ y ∧ y ≤ 9999 ∧ 1 ≤ m ∧ m ≤ 12 ∧ 1 ≤ d ∧ d ≤ monthLen y m
    ∧ h ≤ 23 ∧ mi ≤ 59 ∧ s ≤ 59 ∧ ms ≤ 999

instance (y m d h mi s ms : Nat) : Decidable (validParts y m d h mi s ms) := by
  unfold validParts; infer_instance

/-- Modelled from the spec: `parse_iso8601_utc` of the external UTC
timestamp adapter (`de_string_to_utc_time_ms`).  Accepts exactly the
strict `YYYY-MM-DDTHH:MM:SS.mmmZ` form with valid components, yielding
milliseconds since the Unix epoch. -/
def parseTime (str : String) : Except String Int :=
  match str.data with
  | [y1, y2, y3, y4, '-', m1, m2, '-', d1, d2, 'T',
     h1, h2, ':', i1, i2, ':', s1, s2, '.', x1, x2, x3, 'Z'] =>
    if isDigitC y1 && isDigitC y2 && isDigitC y3 && isDigitC y4
        && isDigitC m1 && isDigitC m2 && isDigitC d1 && isDigitC d2
        && isDigitC h1 && isDigitC h2 && isDigitC i1 && isDigitC i2
        && isDigitC s1 && isDigitC s2 && isDigitC x1 && isDigitC x2
        && isDigitC x3 then
      if validParts (vBE [y1, y2, y3, y4]) (vBE [m1, m2]) (vBE [d1, d2])
          (vBE [h1, h2]) (vBE [i1, i2]) (vBE [s1, s2]) (vBE [x1, x2, x3]) then
        .ok (timeFromParts (vBE [y1, y2, y3, y4]) (vBE [m1, m2]) (vBE [d1, d2])
          (vBE [h1, h2]) (vBE [i1, i2]) (vBE [s1, s2]) (vBE [x1, x2, x3]))
      else .error "invalid UTC timestamp"
    else .error "invalid UTC timestamp"
  | _ => .error "invalid UTC timestamp"

/-- Find the year containing day `n` (counted from 0001-01-01), starting
the scan at year `y`; returns the year and the day-of-year remainder.
Fuel-driven so that the kernel can evaluate it. -/
def findYearF : Nat → Nat → Nat → Nat × Nat
  | 0, y, n => (y, n)
  | f + 1, y, n =>
    if n < daysInYear y then (y, n) else findYearF f (y + 1) (n - daysInYear y)

/-- Find the month containing day-of-year `n`, scanning a month-length
list with 1-based month counter `m`; returns the month and day-of-month
remainder (0-based). -/
def findMonthF : List Nat → Nat → Nat → Nat × Nat
  | [], m, n => (m, n)
  | l :: ls, m, n => if n < l then (m, n) else findMonthF ls (m + 1) (n - l)

/-- Modelled from the spec: `format_iso8601_utc_z` of the external UTC
timestamp adapter (`se_time_ms_to_utc_z_string`): render
milliseconds-since-epoch as `YYYY-MM-DDTHH:MM:SS.mmmZ`. -/
def formatTime (t : Int) : String :=
  let tod : Nat := (t % 86400000).toNat
  let n : Nat := (t / 86400000 + epochDays).toNat
  let era := n / 146097
  let rem := n % 146097
  let yd := findYearF 400 (400 * era + 1) rem
  let md := findMonthF (monthLens yd.1) 1 yd.2
  let h := tod / 3600000
  let r1 := tod % 3600000
  let mi := r1 / 60000
  let r2 := r1 % 60000
  let s := r2 / 1000
  let ms := r2 % 1000
  ⟨print4 yd.1 ++ ['-'] ++ print2 md.1 ++ ['-'] ++ print2 (md.2 + 1) ++ ['T']
    ++ print2 h ++ [':'] ++ print2 mi ++ [':'] ++ print2 s ++ ['.']
    ++ print3 ms ++ ['Z']⟩

/-- Longest digit prefix. -/
def takeDigits (cs : List Char) : List Char := cs.takeWhile isDigitC

/-- Rest after the longest digit prefix. -/
def dropDigits (cs : List Char) : List Char := cs.dropWhile isDigitC

/-- Strip an optional leading sign, returning the sign as `±1`. -/
def splitSign : List Char → Int × List Char
  | '-' :: cs => (-1, cs)
  | '+' :: cs => (1, cs)
  | cs => (1, cs)

/-- Exact rational value of a parsed decimal numeral: sign, integer
digits, fraction digits, decimal exponent. -/
def decValue (sign : Int) (ipart fpart : List Char) (exp : Int) : ℚ :=
  let m : Int := sign * ((vBE ipart * 10 ^ fpart.length + vBE fpart : Nat) : Int)
  if 0 ≤ exp then mkRat (m * 10 ^ exp.toNat) (10 ^ fpart.length)
  else mkRat m (10 ^ fpart.length * 10 ^ (-exp).toNat)

/-- The fraction digits after an optional decimal point. -/
def fracOf : List Char → List Char
  | '.' :: cs2 => takeDigits cs2
  | _ => []

/-- The rest of the input after the fraction part. -/
def restOf : List Char → List Char
  | '.' :: cs2 => dropDigits cs2
  | rest1 => rest1

/-- Parse an optional scientific-exponent suffix. -/
def expVal : List Char → Except String Int
  | [] => .ok 0
  | e :: cs3 =>
    if e = 'e' ∨ e = 'E' then
      if (takeDigits (splitSign cs3).2).length = 0
          ∨ (dropDigits (splitSign cs3).2).length ≠ 0 then
        .error "invalid decimal"
      else .ok ((splitSign cs3).1 * (vBE (takeDigits (splitSign cs3).2) : Int))
    else .error "invalid decimal"

/-- Modelled from the spec: `parse_exact` of the external decimal type
(`rust_decimal`'s string deserialization): an optional sign, digits with
an optional fraction part, and an optional scientific exponent, parsed
exactly into a rational. -/
def parseDec (str : String) : Except String ℚ :=
  if (takeDigits (splitSign str.data).2).length = 0
      ∧ (fracOf (dropDigits (splitSign str.data).2)).length = 0 then
    .error "invalid decimal"
  else
    match expVal (restOf (dropDigits (splitSign str.data).2)) with
    | .error e => .error e
    | .ok exp =>
      .ok (decValue (splitSign str.data).1
        (takeDigits (splitSign str.data).2)
        (fracOf (dropDigits (splitSign str.data).2)) exp)

/-- The rational `q·10^s`, computed through core `mkRat` so that it
reduces definitionally. -/
def qpow10 (q : ℚ) (s : Nat) : ℚ := mkRat (q.num * 10 ^ s) q.den

/-- Smallest scale `s` (searched from `s` upward with the given fuel)
such that `q·10^s` is an integer. -/
def findScaleF : Nat → Nat → ℚ → Option Nat
  | 0, _, _ => none
  | f + 1, s, q => if (qpow10 q s).den = 1 then some s else findScaleF f (s + 1) q

/-- Modelled from the spec: `to_exact_string` of the external decimal
type: render a decimal-representable rational exactly, in plain
(non-scientific) canonical form. -/
def formatDec (q : ℚ) : String :=
  match findScaleF (q.den + 1) 0 q with
  | none => ""
  | some s =>
    let m : Int := (qpow10 q s).num
    let a : Nat := m.natAbs
    let ip := a / 10 ^ s
    let fp := a % 10 ^ s
    let signC : List Char := if m < 0 then ['-'] else []
    let frac : List Char := if s = 0 then [] else '.' :: padZeros s (printNat fp)
    ⟨signC ++ printNat ip ++ frac⟩

/-- Decidable equality for fallible results (componentwise). -/
instance {α β : Type} [DecidableEq α] [DecidableEq β] :
    DecidableEq (Except α β) := fun a b =>
  match a, b with
  | .ok x, .ok y =>
    if h : x = y then .isTrue (by rw [h]) else .isFalse (by simp [h])
  | .error x, .error y =>
    if h : x = y then .isTrue (by rw [h]) else .isFalse (by simp [h])
  | .ok _, .error _ => .isFalse (by simp)
  | .error _, .ok _ => .isFalse (by simp)

/-- An optional-decimal column: empty string means absent, otherwise the
decimal numeral (source schema rule). -/
def parseOptDec (s : String) : Except String (Option ℚ) :=
  if s = "" then .ok none
  else
    match parseDec s with
    | .ok q => .ok (some q)
    | .error e => .error e

/-- Serialize an optional decimal: empty string when absent. -/
def formatOptDec : Option ℚ → String
  | none => ""
  | some q => formatDec q

/-- Model of Rust's `String::to_uppercase` (character-wise; ASCII letters
are what matters for the boolean literals). -/
def strToUpper (s : String) : String := ⟨s.data.map Char.toUpper⟩

/-- `de_string_true_false_to_bool` from the source: uppercase the token
and accept exactly `TRUE` / `FALSE`. -/
def de_string_true_false_to_bool (s : String) : Except String Bool :=
  if strToUpper s = "TRUE" then .ok true
  else if strToUpper s = "FALSE" then .ok false
  else .error "Expecting true or false in upper or lower case"

/-- `se_bool_to_uppercase_string_true_false` from the source. -/
def se_bool_to_uppercase_string_true_false (b : Bool) : String :=
  if b then "TRUE" else "FALSE"

/-- The spec's notion of one character matching an uppercase ASCII letter
case-insensitively (the letter itself or its lowercase variant). -/
def chMatchB (c L : Char) : Bool :=
  decide (c = L) || decide (c.toNat = L.toNat + 32)

/-- Character-wise case-insensitive match of a string against an
uppercase literal. -/
def matchesCIB : List Char → List Char → Bool
  | [], [] => true
  | c :: cs, l :: ls => chMatchB c l && matchesCIB cs ls
  | _, _ => false

/-- The spec's "case-insensitive literal" predicate on strings. -/
def matchesCI (s lit : String) : Bool := matchesCIB s.data lit.data

/-- Modelled from the spec: `canonical_label` of the external
transaction-type enumeration (the serde display label of each variant). -/
def TaxBitRecType.label : TaxBitRecType → String
  | .Buy => "Buy"
  | .Sale => "Sale"
  | .Trade => "Trade"
  | .Income => "Income"
  | .Expense => "Expense"
  | .TransferIn => "TransferIn"
  | .TransferOut => "TransferOut"
  | .GiftSent => "GiftSent"
  | .GiftReceived => "GiftReceived"
  | .Unknown => "Unknown"
  | .Invalid => "Invalid"

/-- Modelled from the spec: `parse` of the external transaction-type
enumeration: match a label against the known label set. -/
def parseType (s : String) : Except String TaxBitRecType :=
  if s = "Buy" then .ok .Buy
  else if s = "Sale" then .ok .Sale
  else if s = "Trade" then .ok .Trade
  else if s = "Income" then .ok .Income
  else if s = "Expense" then .ok .Expense
  else if s = "TransferIn" then .ok .TransferIn
  else if s = "TransferOut" then .ok .TransferOut
  else if s = "GiftSent" then .ok .GiftSent
  else if s = "GiftReceived" then .ok .GiftReceived
  else if s = "Unknown" then .ok .Unknown
  else if s = "Invalid" then .ok .Invalid
  else .error "unknown transaction type"

/-- One tabular input row: the twelve named columns of the wire schema,
in the fixed column order (the CSV tokenizer itself is out of scope). -/
structure Row where
  date : String
  transaction_type : String
  received_quantity : String
  received_currency : String
  sent_quantity : String
  sent_currency : String
  fee_currency : String
  fee_amount : String
  market_value : String
  source : String
  internal_transfer : String
  external_id : String
deriving DecidableEq

/-- Row → record parsing: each column by its field rule (struct field
order, first error wins), mirroring the serde derive on the source
struct with its field attributes. -/
def parseRec (r : Row) : Except String TaxBitExportRec :=
  match parseTime r.date with
  | .error e => .error e
  | .ok t =>
  match parseType r.transaction_type with
  | .error e => .error e
  | .ok ty =>
  match parseOptDec r.received_quantity with
  | .error e => .error e
  | .ok rq =>
  match parseOptDec r.sent_quantity with
  | .error e => .error e
  | .ok sq =>
  match parseOptDec r.fee_amount with
  | .error e => .error e
  | .ok fa =>
  match parseOptDec r.market_value with
  | .error e => .error e
  | .ok mv =>
  match de_string_true_false_to_bool r.internal_transfer with
  | .error e => .error e
  | .ok it =>
    .ok { time := t, type_txs := ty, received_quantity := rq,
          received_currency := r.received_currency, sent_quantity := sq,
          sent_currency := r.sent_currency, fee_currency := r.fee_currency,
          fee_amount := fa, market_value := mv, source := r.source,
          internal_transfer := it, external_id := r.external_id }

/-- Record → row serialization: each field by its column rule, mirroring
the serde serializer attributes on the source struct. -/
def serializeRec (rec : TaxBitExportRec) : Row where
  date := formatTime rec.time
  transaction_type := rec.type_txs.label
  received_quantity := formatOptDec rec.received_quantity
  received_currency := rec.received_currency
  sent_quantity := formatOptDec rec.sent_quantity
  sent_currency := rec.sent_currency
  fee_currency := rec.fee_currency
  fee_amount := formatOptDec rec.fee_amount
  market_value := formatOptDec rec.market_value
  source := rec.source
  internal_transfer := se_bool_to_uppercase_string_true_false rec.internal_transfer
  external_id := rec.external_id

/-- The pair of records of the spec's absent-vs-present scenario: all
fields default except `received_quantity` on the second. -/
def mismatchA : TaxBitExportRec := TaxBitExportRec.new

/-- Companion record with `received_quantity` present. -/
def mismatchB : TaxBitExportRec :=
  { TaxBitExportRec.new with received_quantity := some 1 }

/-- The failing input of the `Invalid`-classification defect: an
`Invalid` record whose only populated currency field is `fee_currency`. -/
def invalidFeeOnly : TaxBitExportRec :=
  { TaxBitExportRec.new with type_txs := .Invalid, fee_currency := "BTC" }

/-- The concrete input row of the spec's parsing scenario. -/
def scenarioRow : Row where
  date := "2020-03-02T07:32:05.000Z"
  transaction_type := "Income"
  received_quantity := "3e-7"
  received_currency := "BTC"
  sent_quantity := ""
  sent_currency := ""
  fee_currency := ""
  fee_amount := ""
  market_value := "0.0025979719720382955"
  source := "BinanceUS"
  internal_transfer := "FALSE"
  external_id := "2459217f-1a6f-4693-974c-d8d65f21abab"

/-- The record the spec's parsing scenario expects. -/
def scenarioRec : TaxBitExportRec where
  time := 1583134325000
  type_txs := .Income
  received_quantity := some (mkRat 3 (10 ^ 7))
  received_currency := "BTC"
  sent_quantity := none
  sent_currency := ""
  fee_currency := ""
  fee_amount := none
  market_value := some (mkRat 25979719720382955 (10 ^ 19))
  source := "BinanceUS"
  internal_transfer := false
  external_id := "2459217f-1a6f-4693-974c-d8d65f21abab"

/- ----------------------------------------------------------------
   Theorems.
---------------------------------------------------------------- -/

theorem cmpNat_self (a : Nat) : cmpNat a a = .eq := by
  simp [cmpNat]

theorem cmpNat_eq_iff (a b : Nat) : cmpNat a b = .eq ↔ a = b := by
  unfold cmpNat
  split_ifs with h1 h2 <;> simp_all <;> omega

theorem cmpInt_self (a : Int) : cmpInt a a = .eq := by
  simp [cmpInt]

theorem cmpInt_eq_iff (a b : Int) : cmpInt a b = .eq ↔ a = b := by
  unfold cmpInt
  split_ifs with h1 h2 <;> simp_all <;> omega

theorem cmpRat_self (a : ℚ) : cmpRat a a = .eq := by
  simp [cmpRat]

theorem cmpRat_eq_iff (a b : ℚ) : cmpRat a b = .eq ↔ a = b := by
  unfold cmpRat
  split_ifs with h1 h2
  · simp [h1.ne]
  · simp [h2]
  · simp [h2]

theorem charToNat_inj {a b : Char} (h : a.toNat = b.toNat) : a = b := by
  apply Char.ext
  apply UInt32.eq_of_toBitVec_eq
  exact BitVec.eq_of_toNat_eq h

theorem cmpChar_self (a : Char) : cmpChar a a = .eq := by
  simp [cmpChar, cmpNat_self]

theorem cmpChar_eq_iff (a b : Char) : cmpChar a b = .eq ↔ a = b := by
  unfold cmpChar
  rw [cmpNat_eq_iff]
  exact ⟨fun h => charToNat_inj h, fun h => by rw [h]⟩

theorem cmpCharList_self (l : List Char) : cmpCharList l l = .eq := by
  induction l with
  | nil => rfl
  | cons a as ih => simp [cmpCharList, cmpChar_self, ih]

theorem cmpCharList_eq_iff (as bs : List Char) :
    cmpCharList as bs = .eq ↔ as = bs := by
  induction as generalizing bs with
  | nil => cases bs <;> simp [cmpCharList]
  | cons a as ih =>
    cases bs with
    | nil => simp [cmpCharList]
    | cons b bs =>
      simp only [cmpCharList]
      cases h : cmpChar a b with
      | eq =>
        have hab : a = b := (cmpChar_eq_iff a b).mp h
        subst hab
        simp [ih]
      | lt =>
        have hne : a ≠ b := by
          intro he; subst he; simp [cmpChar_self] at h
        simp [hne]
      | gt =>
        have hne : a ≠ b := by
          intro he; subst he; simp [cmpChar_self] at h
        simp [hne]

theorem cmpStr_self (a : String) : cmpStr a a = .eq := by
  simp [cmpStr, cmpCharList_self]

theorem cmpStr_eq_iff (a b : String) : cmpStr a b = .eq ↔ a = b := by
  unfold cmpStr
  rw [cmpCharList_eq_iff]
  exact String.ext_iff.symm

theorem cmpBool_self (a : Bool) : cmpBool a a = .eq := by
  cases a <;> rfl

theorem cmpBool_eq_iff (a b : Bool) : cmpBool a b = .eq ↔ a = b := by
  cases a <;> cases b <;> simp [cmpBool]

theorem ordinal_inj (a b : TaxBitRecType) : a.ordinal = b.ordinal ↔ a = b := by
  cases a <;> cases b <;> decide

theorem cmpType_self (a : TaxBitRecType) : cmpType a a = .eq := by
  simp [cmpType, cmpNat_self]

theorem cmpType_eq_iff (a b : TaxBitRecType) : cmpType a b = .eq ↔ a = b := by
  unfold cmpType
  rw [cmpNat_eq_iff, ordinal_inj]

theorem pcmpInt_self (a : Int) : pcmpInt a a = some .eq := by
  simp [pcmpInt, cmpInt_self]

theorem pcmpInt_eq_iff (a b : Int) : pcmpInt a b = some .eq ↔ a = b := by
  simp [pcmpInt, cmpInt_eq_iff]

theorem pcmpStr_self (a : String) : pcmpStr a a = some .eq := by
  simp [pcmpStr, cmpStr_self]

theorem pcmpStr_eq_iff (a b : String) : pcmpStr a b = some .eq ↔ a = b := by
  simp [pcmpStr, cmpStr_eq_iff]

theorem pcmpBool_self (a : Bool) : pcmpBool a a = some .eq := by
  simp [pcmpBool, cmpBool_self]

theorem pcmpBool_eq_iff (a b : Bool) : pcmpBool a b = some .eq ↔ a = b := by
  simp [pcmpBool, cmpBool_eq_iff]

theorem pcmpType_self (a : TaxBitRecType) : pcmpType a a = some .eq := by
  simp [pcmpType, cmpType_self]

theorem pcmpType_eq_iff (a b : TaxBitRecType) :
    pcmpType a b = some .eq ↔ a = b := by
  simp [pcmpType, cmpType_eq_iff]

theorem pcmpOptRat_self (p : Option ℚ) : pcmpOptRat p p = some .eq := by
  cases p <;> simp [pcmpOptRat, cmpRat_self]

theorem pcmpOptRat_eq_iff (p q : Option ℚ) :
    pcmpOptRat p q = some .eq ↔ p = q := by
  cases p <;> cases q <;> simp [pcmpOptRat, cmpRat_eq_iff]

theorem pcmpOptRat_isSome (p q : Option ℚ) : ∃ o, pcmpOptRat p q = some o := by
  cases p <;> cases q <;> exact ⟨_, rfl⟩

theorem partial_cmp_eq_firstNonEq (a b : TaxBitExportRec) :
    a.partial_cmp b = firstNonEq (fieldCmpList a b) := by
  unfold TaxBitExportRec.partial_cmp fieldCmpList
  simp only [firstNonEq]
  rcases pcmpInt a.time b.time with _ | (_ | _ | _) <;> try rfl
  rcases pcmpType a.type_txs b.type_txs with _ | (_ | _ | _) <;> try rfl
  rcases pcmpStr a.received_currency b.received_currency with _ | (_ | _ | _) <;> try rfl
  rcases pcmpStr a.sent_currency b.sent_currency with _ | (_ | _ | _) <;> try rfl
  rcases pcmpStr a.fee_currency b.fee_currency with _ | (_ | _ | _) <;> try rfl
  rcases pcmpOptRat a.received_quantity b.received_quantity with _ | (_ | _ | _) <;> try rfl
  rcases pcmpOptRat a.sent_quantity b.sent_quantity with _ | (_ | _ | _) <;> try rfl
  rcases pcmpOptRat a.fee_amount b.fee_amount with _ | (_ | _ | _) <;> try rfl
  rcases pcmpOptRat a.market_value b.market_value with _ | (_ | _ | _) <;> try rfl
  rcases pcmpStr a.source b.source with _ | (_ | _ | _) <;> try rfl
  rcases pcmpBool a.internal_transfer b.internal_transfer with _ | (_ | _ | _) <;> try rfl
  rcases pcmpStr a.external_id b.external_id with _ | (_ | _ | _) <;> rfl

theorem fieldCmpList_all_some (a b : TaxBitExportRec) :
    ∀ x ∈ fieldCmpList a b, ∃ o, x = some o := by
  intro x hx
  simp only [fieldCmpList, List.mem_cons, List.not_mem_nil, or_false] at hx
  rcases hx with rfl | rfl | rfl | rfl | rfl | rfl | rfl | rfl | rfl | rfl | rfl | rfl <;>
    first
      | exact ⟨_, rfl⟩
      | exact pcmpOptRat_isSome _ _

theorem firstNonEq_ne_none (l : List (Option Ordering))
    (h : ∀ x ∈ l, ∃ o, x = some o) : firstNonEq l ≠ none := by
  induction l with
  | nil => simp [firstNonEq]
  | cons c rest ih =>
    obtain ⟨o, rfl⟩ := h c (List.mem_cons_self c rest)
    cases o with
    | lt => simp [firstNonEq]
    | gt => simp [firstNonEq]
    | eq =>
      simp only [firstNonEq]
      exact ih fun x hx => h x (List.mem_cons_of_mem _ hx)

theorem firstNonEq_eq_iff_all_eq (l : List (Option Ordering))
    (h : ∀ x ∈ l, ∃ o, x = some o) :
    firstNonEq l = some .eq ↔ ∀ x ∈ l, x = some .eq := by
  induction l with
  | nil => simp [firstNonEq]
  | cons c rest ih =>
    obtain ⟨o, rfl⟩ := h c (List.mem_cons_self c rest)
    cases o with
    | lt => simp [firstNonEq]
    | gt => simp [firstNonEq]
    | eq =>
      simp only [firstNonEq, List.forall_mem_cons, true_and]
      exact ih fun x hx => h x (List.mem_cons_of_mem _ hx)

theorem partial_cmp_ne_none (a b : TaxBitExportRec) :
    a.partial_cmp b ≠ none := by
  rw [partial_cmp_eq_firstNonEq]
  exact firstNonEq_ne_none _ (fieldCmpList_all_some a b)

theorem cmp_eq_partial_cmp (a b : TaxBitExportRec) :
    a.cmp b = a.partial_cmp b := by
  unfold TaxBitExportRec.cmp
  cases a.partial_cmp b <;> rfl

theorem partial_cmp_eq_some_eq_iff (a b : TaxBitExportRec) :
    a.partial_cmp b = some .eq ↔ a = b := by
  obtain ⟨t1, ty1, rq1, rc1, sq1, sc1, fc1, fa1, mv1, so1, it1, e1⟩ := a
  obtain ⟨t2, ty2, rq2, rc2, sq2, sc2, fc2, fa2, mv2, so2, it2, e2⟩ := b
  rw [partial_cmp_eq_firstNonEq, firstNonEq_eq_iff_all_eq _ (fieldCmpList_all_some _ _)]
  simp only [fieldCmpList, List.forall_mem_cons, List.forall_mem_nil, and_true]
  simp only [pcmpInt_eq_iff, pcmpType_eq_iff, pcmpStr_eq_iff, pcmpOptRat_eq_iff,
    pcmpBool_eq_iff, TaxBitExportRec.mk.injEq]
  tauto

theorem eqRec_true_iff (a b : TaxBitExportRec) : a.eq b = true ↔ a = b := by
  obtain ⟨t1, ty1, rq1, rc1, sq1, sc1, fc1, fa1, mv1, so1, it1, e1⟩ := a
  obtain ⟨t2, ty2, rq2, rc2, sq2, sc2, fc2, fa2, mv2, so2, it2, e2⟩ := b
  simp only [TaxBitExportRec.eq, Bool.and_eq_true, decide_eq_true_eq,
    TaxBitExportRec.mk.injEq]
  tauto

theorem optEqSpec_iff (p q : Option ℚ) : optEqSpec p q ↔ p = q := by
  cases p <;> cases q <;> simp [optEqSpec]

/-- C1 (counterexample): for the concrete pair that agrees on all
higher-priority fields and has `received_quantity` absent vs present,
`Ord::cmp` does not panic: it returns the verdict `lt` (the derived
`Option` ordering places `None` below `Some`), so the claimed fatal
invariant violation does not occur. -/
theorem c1_counterexample :
    mismatchA.time = mismatchB.time
    ∧ mismatchA.type_txs = mismatchB.type_txs
    ∧ mismatchA.received_currency = mismatchB.received_currency
    ∧ mismatchA.sent_currency = mismatchB.sent_currency
    ∧ mismatchA.fee_currency = mismatchB.fee_currency
    ∧ mismatchA.received_quantity = none
    ∧ mismatchB.received_quantity = some 1
    ∧ TaxBitExportRec.cmp mismatchA mismatchB = some Ordering.lt := by
  decide

/-- C1 (amended): for every pair of records that agree on all
higher-priority fields but where one has `received_quantity` absent and
the other has it present, `Ord::cmp` produces an ordering verdict rather
than panicking: the record with the field absent compares strictly below
the one with it present. -/
theorem c1_cmp_absent_below_present (a b : TaxBitExportRec) (q : ℚ)
    (ht : a.time = b.time) (hty : a.type_txs = b.type_txs)
    (hrc : a.received_currency = b.received_currency)
    (hsc : a.sent_currency = b.sent_currency)
    (hfc : a.fee_currency = b.fee_currency)
    (ha : a.received_quantity = none) (hb : b.received_quantity = some q) :
    a.cmp b = some Ordering.lt := by
  rw [cmp_eq_partial_cmp]
  unfold TaxBitExportRec.partial_cmp
  rw [ht, hty, hrc, hsc, hfc, ha, hb]
  simp [pcmpInt_self, pcmpType_self, pcmpStr_self, pcmpOptRat]

/-- C1 (witness): the amended statement applied to the concrete
absent-vs-present pair. -/
theorem c1_witness : TaxBitExportRec.cmp mismatchA mismatchB = some Ordering.lt :=
  c1_cmp_absent_below_present mismatchA mismatchB 1 (by decide) (by decide)
    (by decide) (by decide) (by decide) (by decide) (by decide)

/-- C2 (code bug): on the `Invalid` record whose only populated currency
field is `fee_currency`, `get_asset` returns the sentinel
`"no-currency-field"` instead of the claimed `fee_currency` fallback,
because the third branch of the fallback chain tests
`fee_currency.is_empty()` where the two branches before it test
non-emptiness. -/
theorem c2_invalid_fee_fallback_divergence :
    invalidFeeOnly.type_txs = TaxBitRecType.Invalid
    ∧ invalidFeeOnly.received_currency = ""
    ∧ invalidFeeOnly.sent_currency = ""
    ∧ invalidFeeOnly.fee_currency = "BTC"
    ∧ invalidFeeOnly.get_asset = some "no-currency-field" := by
  decide

/-- C3: for every pair of records, the ordering comparison equals the
first non-equal verdict of the per-field comparisons taken in the
priority sequence time, type_txs, received_currency, sent_currency,
fee_currency, received_quantity, sent_quantity, fee_amount,
market_value, source, internal_transfer, external_id. -/
theorem c3_ordering_priority_sequence (a b : TaxBitExportRec) :
    a.partial_cmp b = firstNonEq (fieldCmpList a b) :=
  partial_cmp_eq_firstNonEq a b

/-- C4: `get_asset` returns `sent_currency` for the outgoing types
Expense, TransferOut, GiftSent, Sale; `received_currency` for the
incoming types Buy, TransferIn, Income, GiftReceived, Trade; and
signals the fatal invariant violation (modelled `none`) on Unknown. -/
theorem c4_get_asset_classification (r : TaxBitExportRec) :
    ((r.type_txs = .Expense ∨ r.type_txs = .TransferOut
        ∨ r.type_txs = .GiftSent ∨ r.type_txs = .Sale) →
      r.get_asset = some r.sent_currency)
    ∧ ((r.type_txs = .Buy ∨ r.type_txs = .TransferIn ∨ r.type_txs = .Income
        ∨ r.type_txs = .GiftReceived ∨ r.type_txs = .Trade) →
      r.get_asset = some r.received_currency)
    ∧ (r.type_txs = .Unknown → r.get_asset = none) := by
  refine ⟨fun h => ?_, fun h => ?_, fun h => ?_⟩
  · rcases h with h | h | h | h <;> simp [TaxBitExportRec.get_asset, h]
  · rcases h with h | h | h | h | h <;> simp [TaxBitExportRec.get_asset, h]
  · simp [TaxBitExportRec.get_asset, h]

/-- C4 (witness): the Unknown branch applied to the default record. -/
theorem c4_witness : TaxBitExportRec.new.get_asset = none :=
  (c4_get_asset_classification TaxBitExportRec.new).2.2 (by decide)

/-- C5: record equality holds iff all twelve fields agree (optional
decimals equal iff both absent or both present with equal values);
equality is reflexive, symmetric and transitive; and two
default-constructed records are equal. -/
theorem c5_equality_spec :
    (∀ a b : TaxBitExportRec, a.eq b = true ↔
      (a.time = b.time ∧ a.type_txs = b.type_txs
        ∧ optEqSpec a.received_quantity b.received_quantity
        ∧ a.received_currency = b.received_currency
        ∧ optEqSpec a.sent_quantity b.sent_quantity
        ∧ a.sent_currency = b.sent_currency
        ∧ a.fee_currency = b.fee_currency
        ∧ optEqSpec a.fee_amount b.fee_amount
        ∧ optEqSpec a.market_value b.market_value
        ∧ a.source = b.source
        ∧ a.internal_transfer = b.internal_transfer
        ∧ a.external_id = b.external_id))
    ∧ (∀ a : TaxBitExportRec, a.eq a = true)
    ∧ (∀ a b : TaxBitExportRec, a.eq b = true → b.eq a = true)
    ∧ (∀ a b c : TaxBitExportRec,
        a.eq b = true → b.eq c = true → a.eq c = true)
    ∧ TaxBitExportRec.new.eq TaxBitExportRec.new = true := by
  refine ⟨fun a b => ?_, fun a => ?_, fun a b h => ?_, fun a b c h1 h2 => ?_, ?_⟩
  · rw [eqRec_true_iff]
    obtain ⟨t1, ty1, rq1, rc1, sq1, sc1, fc1, fa1, mv1, so1, it1, e1⟩ := a
    obtain ⟨t2, ty2, rq2, rc2, sq2, sc2, fc2, fa2, mv2, so2, it2, e2⟩ := b
    simp only [TaxBitExportRec.mk.injEq, optEqSpec_iff]
  · rw [eqRec_true_iff]
  · rw [eqRec_true_iff] at h ⊢
    exact h.symm
  · rw [eqRec_true_iff] at h1 h2 ⊢
    exact h1.trans h2
  · rw [eqRec_true_iff]

/-- C5 (witness): transitivity applied at the default record. -/
theorem c5_witness : TaxBitExportRec.new.eq TaxBitExportRec.new = true :=
  c5_equality_spec.2.2.2.1 TaxBitExportRec.new TaxBitExportRec.new
    TaxBitExportRec.new (by decide) (by decide)

/-- C9: the chained comparison is total — `partial_cmp` always returns a
verdict, `Ord::cmp` coincides with it (so its panic branch is
unreachable), and on the optional-decimal fields absent compares below
present. -/
theorem c9_partial_cmp_total :
    (∀ a b : TaxBitExportRec,
      (a.partial_cmp b).isSome = true
        ∧ a.cmp b = a.partial_cmp b
        ∧ (a.cmp b).isSome = true)
    ∧ (∀ x : ℚ, pcmpOptRat none (some x) = some Ordering.lt
        ∧ pcmpOptRat (some x) none = some Ordering.gt) := by
  refine ⟨fun a b => ?_, fun x => ⟨rfl, rfl⟩⟩
  have h1 : (a.partial_cmp b).isSome = true :=
    Option.isSome_iff_ne_none.mpr (partial_cmp_ne_none a b)
  exact ⟨h1, cmp_eq_partial_cmp a b, by rw [cmp_eq_partial_cmp]; exact h1⟩

/-- C10: the ordering and the equality agree — `partial_cmp` returns
`some eq` exactly when `PartialEq::eq` returns true. -/
theorem c10_partial_cmp_eq_agreement (a b : TaxBitExportRec) :
    a.partial_cmp b = some Ordering.eq ↔ a.eq b = true := by
  rw [partial_cmp_eq_some_eq_iff, eqRec_true_iff]

theorem toNat_ofNat_valid {n : Nat} (h : n.isValidChar) :
    (Char.ofNat n).toNat = n := by
  rw [Char.ofNat, dif_pos h]
  rfl

theorem toUpper_eq_uppercase_iff (c L : Char) (hL1 : 65 ≤ L.toNat)
    (hL2 : L.toNat ≤ 90) : c.toUpper = L ↔ chMatchB c L = true := by
  simp only [Char.toUpper]
  by_cases h : c.toNat ≥ 97 ∧ c.toNat ≤ 122
  · rw [if_pos h]
    constructor
    · intro he
      have hv : (c.toNat - 32).isValidChar := Or.inl (by omega)
      have h2 := congrArg Char.toNat he
      rw [toNat_ofNat_valid hv] at h2
      simp only [chMatchB, Bool.or_eq_true, decide_eq_true_eq]
      right
      omega
    · intro hm
      simp only [chMatchB, Bool.or_eq_true, decide_eq_true_eq] at hm
      rcases hm with hm | hm
      · subst hm
        omega
      · rw [show c.toNat - 32 = L.toNat by omega, Char.ofNat_toNat]
  · rw [if_neg h]
    constructor
    · intro he
      simp [chMatchB, he]
    · intro hm
      simp only [chMatchB, Bool.or_eq_true, decide_eq_true_eq] at hm
      rcases hm with hm | hm
      · exact hm
      · omega

theorem map_toUpper_eq_iff (cs ls : List Char)
    (hL : ∀ L ∈ ls, 65 ≤ L.toNat ∧ L.toNat ≤ 90) :
    cs.map Char.toUpper = ls ↔ matchesCIB cs ls = true := by
  induction cs generalizing ls with
  | nil => cases ls <;> simp [matchesCIB]
  | cons c cs ih =>
    cases ls with
    | nil => simp [matchesCIB]
    | cons l ls =>
      have hl := hL l (List.mem_cons_self _ _)
      simp only [List.map_cons, List.cons.injEq, matchesCIB, Bool.and_eq_true]
      rw [toUpper_eq_uppercase_iff c l hl.1 hl.2,
        ih ls fun x hx => hL x (List.mem_cons_of_mem _ hx)]

theorem strToUpper_eq_lit_iff (s lit : String)
    (h : ∀ L ∈ lit.data, 65 ≤ L.toNat ∧ L.toNat ≤ 90) :
    strToUpper s = lit ↔ matchesCI s lit = true := by
  unfold strToUpper matchesCI
  rw [String.ext_iff]
  exact map_toUpper_eq_iff s.data lit.data h

/-- C7: the Internal Transfer codec — parsing accepts exactly the
case-insensitive literals TRUE/FALSE (yielding true/false) and fails
with the format error on any other token, while serialization emits
exactly the uppercase literals. -/
theorem c7_internal_transfer_codec :
    (∀ s : String,
      (de_string_true_false_to_bool s = .ok true ↔ matchesCI s "TRUE" = true)
      ∧ (de_string_true_false_to_bool s = .ok false ↔ matchesCI s "FALSE" = true)
      ∧ (matchesCI s "TRUE" = false → matchesCI s "FALSE" = false →
          de_string_true_false_to_bool s =
            .error "Expecting true or false in upper or lower case"))
    ∧ se_bool_to_uppercase_string_true_false true = "TRUE"
    ∧ se_bool_to_uppercase_string_true_false false = "FALSE" := by
  have hT : ∀ L ∈ "TRUE".data, 65 ≤ L.toNat ∧ L.toNat ≤ 90 := by decide
  have hF : ∀ L ∈ "FALSE".data, 65 ≤ L.toNat ∧ L.toNat ≤ 90 := by decide
  refine ⟨fun s => ⟨?_, ?_, fun h1 h2 => ?_⟩, rfl, rfl⟩
  · rw [← strToUpper_eq_lit_iff s "TRUE" hT]
    unfold de_string_true_false_to_bool
    split_ifs with hi1 hi2
    · simp [hi1]
    · simp [hi1]
    · simp [hi1]
  · rw [← strToUpper_eq_lit_iff s "FALSE" hF]
    unfold de_string_true_false_to_bool
    split_ifs with hi1 hi2
    · simp [hi1]
    · simp [hi2]
    · simp [hi2]
  · have h1' : strToUpper s ≠ "TRUE" := fun he => by
      have hx := (strToUpper_eq_lit_iff s "TRUE" hT).mp he
      simp [hx] at h1
    have h2' : strToUpper s ≠ "FALSE" := fun he => by
      have hx := (strToUpper_eq_lit_iff s "FALSE" hF).mp he
      simp [hx] at h2
    unfold de_string_true_false_to_bool
    rw [if_neg h1', if_neg h2']

/-- C7 (witness): the failure clause applied to a rejected token. -/
theorem c7_witness :
    de_string_true_false_to_bool "yes" =
      .error "Expecting true or false in upper or lower case" :=
  ((c7_internal_transfer_codec.1 "yes").2.2) (by decide) (by decide)

set_option maxRecDepth 8000
set_option maxHeartbeats 2000000

/-- C8: parsing the concrete scenario row against the 12-column schema
succeeds and yields the record with time 1583134325000, type Income,
received_quantity 3·10⁻⁷, received_currency "BTC", sent_quantity absent,
market_value 0.0025979719720382955 and internal_transfer false. -/
theorem c8_scenario_row_parse :
    parseRec scenarioRow = .ok scenarioRec
    ∧ scenarioRec.time = 1583134325000
    ∧ scenarioRec.type_txs = TaxBitRecType.Income
    ∧ scenarioRec.received_quantity = some ((3 : ℚ) / 10 ^ 7)
    ∧ scenarioRec.received_currency = "BTC"
    ∧ scenarioRec.sent_quantity = none
    ∧ scenarioRec.market_value = some ((25979719720382955 : ℚ) / 10 ^ 19)
    ∧ scenarioRec.internal_transfer = false := by
  refine ⟨by decide, rfl, rfl, ?_, rfl, rfl, ?_, rfl⟩
  · show some (mkRat 3 (10 ^ 7)) = _
    rw [Rat.mkRat_eq_div]
    norm_num
  · show some (mkRat 25979719720382955 (10 ^ 19)) = _
    rw [Rat.mkRat_eq_div]
    norm_num

theorem toNat_digitChar (k : Nat) (h : k < 10) : (digitChar k).toNat = 48 + k := by
  unfold digitChar
  exact toNat_ofNat_valid (Or.inl (by omega))

theorem isDigitC_digitChar (k : Nat) (h : k < 10) :
    isDigitC (digitChar k) = true := by
  simp only [isDigitC, toNat_digitChar k h, Bool.and_eq_true, decide_eq_true_eq]
  omega

theorem charDigit_digitChar (k : Nat) (h : k < 10) :
    charDigit (digitChar k) = k := by
  simp [charDigit, toNat_digitChar k h]

theorem isLeap_iff (y : Nat) :
    isLeap y = true ↔ (y % 4 = 0 ∧ (y % 100 ≠ 0 ∨ y % 400 = 0)) := by
  simp [isLeap, Bool.and_eq_true, Bool.or_eq_true, decide_eq_true_eq]

theorem daysInYear_eq (y : Nat) :
    (isLeap y = true ∧ daysInYear y = 366)
      ∨ (isLeap y = false ∧ daysInYear y = 365) := by
  unfold daysInYear
  cases h : isLeap y <;> simp

theorem yearsDays_succ (k : Nat) :
    yearsDays (k + 1) = yearsDays k + daysInYear (k + 1) := by
  unfold yearsDays daysInYear
  by_cases h : isLeap (k + 1) = true
  · rw [if_pos h]
    rw [isLeap_iff] at h
    omega
  · rw [if_neg h]
    have h' : ¬((k + 1) % 4 = 0 ∧ ((k + 1) % 100 ≠ 0 ∨ (k + 1) % 400 = 0)) := by
      rw [← isLeap_iff]
      simpa using h
    omega

theorem segDays_succ_right (k : Nat) : ∀ a : Nat,
    segDays a (k + 1) = segDays a k + daysInYear (a + k) := by
  induction k with
  | zero => intro a; simp [segDays]
  | succ k ih =>
    intro a
    have h1 : segDays a (k + 1 + 1) = daysInYear a + segDays (a + 1) (k + 1) := rfl
    have h2 : segDays a (k + 1) = daysInYear a + segDays (a + 1) k := rfl
    rw [h1, ih (a + 1), show a + 1 + k = a + (k + 1) from by omega, h2]
    omega

theorem seg_years (k a : Nat) :
    yearsDays a + segDays (a + 1) k = yearsDays (a + k) := by
  induction k with
  | zero => simp [segDays]
  | succ k ih =>
    rw [segDays_succ_right, show a + 1 + k = a + k + 1 from by omega,
      show a + (k + 1) = (a + k) + 1 from by omega, yearsDays_succ]
    omega

theorem findYearF_seg (k : Nat) : ∀ (a r fuel : Nat),
    r < daysInYear (a + k) → k < fuel →
    findYearF fuel a (segDays a k + r) = (a + k, r) := by
  induction k with
  | zero =>
    intro a r fuel hr hf
    cases fuel with
    | zero => omega
    | succ f =>
      simp only [segDays, Nat.zero_add, findYearF]
      rw [if_pos (by simpa using hr)]
      simp
  | succ k ih =>
    intro a r fuel hr hf
    cases fuel with
    | zero => omega
    | succ f =>
      simp only [segDays, findYearF]
      rw [if_neg (by omega),
        show daysInYear a + segDays (a + 1) k + r - daysInYear a
          = segDays (a + 1) k + r from by omega,
        ih (a + 1) r f (by rw [show a + 1 + k = a + (k + 1) from by omega]; exact hr)
          (by omega),
        show a + 1 + k = a + (k + 1) from by omega]

theorem findMonthF_take (k : Nat) : ∀ (ls : List Nat) (m0 r : Nat),
    r < ls.getD k 0 →
    findMonthF ls m0 (sumTake ls k + r) = (m0 + k, r) := by
  induction k with
  | zero =>
    intro ls m0 r hr
    cases ls with
    | nil => simp at hr
    | cons l ls =>
      simp only [sumTake, Nat.zero_add, findMonthF]
      rw [if_pos (by simpa using hr)]
      simp
  | succ k ih =>
    intro ls m0 r hr
    cases ls with
    | nil => simp at hr
    | cons l ls =>
      simp only [sumTake, findMonthF]
      rw [if_neg (by omega),
        show l + sumTake ls k + r - l = sumTake ls k + r from by omega,
        ih ls (m0 + 1) r (by simpa using hr),
        show m0 + 1 + k = m0 + (k + 1) from by omega]

theorem sumTake_nil (k : Nat) : sumTake [] k = 0 := by
  cases k <;> rfl

theorem sumTake_succ_getD (ls : List Nat) : ∀ k : Nat, k < ls.length →
    sumTake ls (k + 1) = sumTake ls k + ls.getD k 0 := by
  induction ls with
  | nil => intro k hk; simp at hk
  | cons l ls ih =>
    intro k hk
    cases k with
    | zero => simp [sumTake]
    | succ k =>
      simp only [sumTake, List.getD_cons_succ]
      rw [ih k (by simpa using hk)]
      omega

theorem sumTake_mono (ls : List Nat) : ∀ k1 k2 : Nat, k1 ≤ k2 →
    sumTake ls k1 ≤ sumTake ls k2 := by
  induction ls with
  | nil => intro k1 k2 _; simp [sumTake_nil]
  | cons l ls ih =>
    intro k1 k2 h
    cases k1 with
    | zero => simp [sumTake]
    | succ k1 =>
      cases k2 with
      | zero => omega
      | succ k2 =>
        simp only [sumTake]
        have := ih k1 k2 (by omega)
        omega

theorem monthLens_length (y : Nat) : (monthLens y).length = 12 := by
  simp [monthLens]

theorem sumTake_monthLens_all (y : Nat) :
    sumTake (monthLens y) 12 = daysInYear y := by
  unfold monthLens daysInYear
  cases h : isLeap y <;> simp [sumTake]

theorem doy_lt_daysInYear (y m d : Nat) (hm1 : 1 ≤ m) (hm2 : m ≤ 12)
    (hd1 : 1 ≤ d) (hd2 : d ≤ monthLen y m) :
    sumTake (monthLens y) (m - 1) + (d - 1) < daysInYear y := by
  have h1 : sumTake (monthLens y) ((m - 1) + 1)
      = sumTake (monthLens y) (m - 1) + (monthLens y).getD (m - 1) 0 :=
    sumTake_succ_getD (monthLens y) (m - 1) (by rw [monthLens_length]; omega)
  have h2 : sumTake (monthLens y) ((m - 1) + 1) ≤ sumTake (monthLens y) 12 :=
    sumTake_mono (monthLens y) _ _ (by omega)
  rw [sumTake_monthLens_all] at h2
  unfold monthLen at hd2
  omega

theorem years400 (e : Nat) : yearsDays (400 * e) = 146097 * e := by
  unfold yearsDays
  omega

theorem yearsDays_split (e j : Nat) :
    yearsDays (400 * e + j) = 146097 * e + yearsDays j := by
  unfold yearsDays
  omega

theorem daysInYear_le (y : Nat) : daysInYear y ≤ 366 := by
  unfold daysInYear
  split <;> omega

theorem daysInYear_mod400 (y : Nat) (h : y % 400 = 0) : daysInYear y = 366 := by
  unfold daysInYear
  rw [if_pos ((isLeap_iff y).mpr ⟨by omega, Or.inr h⟩)]

theorem findYear_of_civil (y doy : Nat) (hy1 : 1 ≤ y)
    (hdoy : doy < daysInYear y) :
    (yearsDays (y - 1) + doy) / 146097 = (y - 1) / 400
    ∧ findYearF 400 (400 * ((y - 1) / 400) + 1)
        ((yearsDays (y - 1) + doy) % 146097) = (y, doy) := by
  set e := (y - 1) / 400 with he
  set j := (y - 1) % 400 with hj
  have hj400 : j < 400 := Nat.mod_lt _ (by omega)
  have hyj : 400 * e + j = y - 1 := Nat.div_add_mod (y - 1) 400
  have h400 : yearsDays (400 * e) = 146097 * e := years400 e
  have hsg : yearsDays (400 * e) + segDays (400 * e + 1) j
      = yearsDays (400 * e + j) := seg_years j (400 * e)
  have hsplit : yearsDays (400 * e + j) = 146097 * e + yearsDays j :=
    yearsDays_split e j
  have hyy : yearsDays (y - 1) = yearsDays (400 * e + j) := by rw [hyj]
  have hbound : yearsDays j + doy < 146097 := by
    have hle : daysInYear y ≤ 366 := daysInYear_le y
    rcases Nat.lt_or_ge j 399 with hj' | hj'
    · have hyj' : yearsDays j ≤ 145366 := by unfold yearsDays; omega
      omega
    · have hj399 : j = 399 := by omega
      have h399 : yearsDays j = 145731 := by rw [hj399]; unfold yearsDays; omega
      have hy400 : y % 400 = 0 := by omega
      have h366 : daysInYear y = 366 := daysInYear_mod400 y hy400
      omega
  have hrem : (yearsDays (y - 1) + doy) % 146097
      = segDays (400 * e + 1) j + doy := by omega
  have hdiv : (yearsDays (y - 1) + doy) / 146097 = e := by omega
  have hy' : 400 * e + 1 + j = y := by omega
  have hfy := findYearF_seg j (400 * e + 1) doy 400
    (by rw [hy']; exact hdoy) (by omega)
  exact ⟨hdiv, by rw [hrem, hfy, hy']⟩

theorem getD_le_31 (l : List Nat) (h : ∀ x ∈ l, x ≤ 31) :
    ∀ k, l.getD k 0 ≤ 31 := by
  induction l with
  | nil => intro k; cases k <;> simp
  | cons a l ih =>
    intro k
    cases k with
    | zero => simpa using h a (List.mem_cons_self _ _)
    | succ k => simpa using ih (fun x hx => h x (List.mem_cons_of_mem _ hx)) k

theorem monthLens_le_31 (y : Nat) : ∀ x ∈ monthLens y, x ≤ 31 := by
  cases h : isLeap y <;> simp [monthLens, h]

theorem monthLen_le_31 (y m : Nat) : monthLen y m ≤ 31 := by
  unfold monthLen
  exact getD_le_31 _ (monthLens_le_31 y) _

theorem parseTime_mk (y m d hh mi sec ms : Nat)
    (hv : validParts y m d hh mi sec ms) :
    parseTime ⟨print4 y ++ ['-'] ++ print2 m ++ ['-'] ++ print2 d ++ ['T']
      ++ print2 hh ++ [':'] ++ print2 mi ++ [':'] ++ print2 sec ++ ['.']
      ++ print3 ms ++ ['Z']⟩ = .ok (timeFromParts y m d hh mi sec ms) := by
  have hv' := hv
  obtain ⟨hy1, hy2, hm1, hm2, hd1, hd2, hh23, hmi59, hs59, hms999⟩ := hv'
  have hd31 : d ≤ 31 := le_trans hd2 (monthLen_le_31 y m)
  have hL : print4 y ++ ['-'] ++ print2 m ++ ['-'] ++ print2 d ++ ['T']
      ++ print2 hh ++ [':'] ++ print2 mi ++ [':'] ++ print2 sec ++ ['.']
      ++ print3 ms ++ ['Z']
      = [digitChar (y / 1000), digitChar (y / 100 % 10), digitChar (y / 10 % 10),
         digitChar (y % 10), '-', digitChar (m / 10), digitChar (m % 10), '-',
         digitChar (d / 10), digitChar (d % 10), 'T', digitChar (hh / 10),
         digitChar (hh % 10), ':', digitChar (mi / 10), digitChar (mi % 10), ':',
         digitChar (sec / 10), digitChar (sec % 10), '.', digitChar (ms / 100),
         digitChar (ms / 10 % 10), digitChar (ms % 10), 'Z'] := rfl
  rw [hL]
  have hY : vBE [digitChar (y / 1000), digitChar (y / 100 % 10),
      digitChar (y / 10 % 10), digitChar (y % 10)] = y := by
    simp only [vBE, charDigit_digitChar _ (show y / 1000 < 10 by omega),
      charDigit_digitChar _ (show y / 100 % 10 < 10 by omega),
      charDigit_digitChar _ (show y / 10 % 10 < 10 by omega),
      charDigit_digitChar _ (show y % 10 < 10 by omega),
      List.length_cons, List.length_nil]
    omega
  have hM : vBE [digitChar (m / 10), digitChar (m % 10)] = m := by
    simp only [vBE, charDigit_digitChar _ (show m / 10 < 10 by omega),
      charDigit_digitChar _ (show m % 10 < 10 by omega),
      List.length_cons, List.length_nil]
    omega
  have hD : vBE [digitChar (d / 10), digitChar (d % 10)] = d := by
    simp only [vBE, charDigit_digitChar _ (show d / 10 < 10 by omega),
      charDigit_digitChar _ (show d % 10 < 10 by omega),
      List.length_cons, List.length_nil]
    omega
  have hH : vBE [digitChar (hh / 10), digitChar (hh % 10)] = hh := by
    simp only [vBE, charDigit_digitChar _ (show hh / 10 < 10 by omega),
      charDigit_digitChar _ (show hh % 10 < 10 by omega),
      List.length_cons, List.length_nil]
    omega
  have hMI : vBE [digitChar (mi / 10), digitChar (mi % 10)] = mi := by
    simp only [vBE, charDigit_digitChar _ (show mi / 10 < 10 by omega),
      charDigit_digitChar _ (show mi % 10 < 10 by omega),
      List.length_cons, List.length_nil]
    omega
  have hS : vBE [digitChar (sec / 10), digitChar (sec % 10)] = sec := by
    simp only [vBE, charDigit_digitChar _ (show sec / 10 < 10 by omega),
      charDigit_digitChar _ (show sec % 10 < 10 by omega),
      List.length_cons, List.length_nil]
    omega
  have hMS : vBE [digitChar (ms / 100), digitChar (ms / 10 % 10),
      digitChar (ms % 10)] = ms := by
    simp only [vBE, charDigit_digitChar _ (show ms / 100 < 10 by omega),
      charDigit_digitChar _ (show ms / 10 % 10 < 10 by omega),
      charDigit_digitChar _ (show ms % 10 < 10 by omega),
      List.length_cons, List.length_nil]
    omega
  unfold parseTime
  simp only [hY, hM, hD, hH, hMI, hS, hMS]
  split_ifs with h1
  · rfl
  · apply h1
    simp only [isDigitC_digitChar _ (show y / 1000 < 10 by omega),
      isDigitC_digitChar _ (show y / 100 % 10 < 10 by omega),
      isDigitC_digitChar _ (show y / 10 % 10 < 10 by omega),
      isDigitC_digitChar _ (show y % 10 < 10 by omega),
      isDigitC_digitChar _ (show m / 10 < 10 by omega),
      isDigitC_digitChar _ (show m % 10 < 10 by omega),
      isDigitC_digitChar _ (show d / 10 < 10 by omega),
      isDigitC_digitChar _ (show d % 10 < 10 by omega),
      isDigitC_digitChar _ (show hh / 10 < 10 by omega),
      isDigitC_digitChar _ (show hh % 10 < 10 by omega),
      isDigitC_digitChar _ (show mi / 10 < 10 by omega),
      isDigitC_digitChar _ (show mi % 10 < 10 by omega),
      isDigitC_digitChar _ (show sec / 10 < 10 by omega),
      isDigitC_digitChar _ (show sec % 10 < 10 by omega),
      isDigitC_digitChar _ (show ms / 100 < 10 by omega),
      isDigitC_digitChar _ (show ms / 10 % 10 < 10 by omega),
      isDigitC_digitChar _ (show ms % 10 < 10 by omega), Bool.and_self]



theorem formatTime_parts (y m d hh mi sec ms : Nat)
    (hv : validParts y m d hh mi sec ms) :
    formatTime (timeFromParts y m d hh mi sec ms)
      = ⟨print4 y ++ ['-'] ++ print2 m ++ ['-'] ++ print2 d ++ ['T'] ++ print2 hh
          ++ [':'] ++ print2 mi ++ [':'] ++ print2 sec ++ ['.'] ++ print3 ms
          ++ ['Z']⟩ := by
  obtain ⟨hy1, hy2, hm1, hm2, hd1, hd2, hh23, hmi59, hs59, hms999⟩ := hv
  have hdoy : sumTake (monthLens y) (m - 1) + (d - 1) < daysInYear y :=
    doy_lt_daysInYear y m d hm1 hm2 hd1 hd2
  have hciv : civilDays y m d
      = yearsDays (y - 1) + (sumTake (monthLens y) (m - 1) + (d - 1)) := by
    unfold civilDays
    omega
  have htod : (timeFromParts y m d hh mi sec ms) % 86400000
      = ((((hh * 60 + mi) * 60 + sec) * 1000 + ms : Nat) : Int) := by
    unfold timeFromParts
    omega
  have hn : ((timeFromParts y m d hh mi sec ms) / 86400000
      + (epochDays : Int)).toNat = civilDays y m d := by
    unfold timeFromParts
    omega
  obtain ⟨hdiv, hfy⟩ :=
    findYear_of_civil y (sumTake (monthLens y) (m - 1) + (d - 1)) hy1 hdoy
  have hgm : d - 1 < (monthLens y).getD (m - 1) 0 := by
    unfold monthLen at hd2
    omega
  have hfm := findMonthF_take (m - 1) (monthLens y) 1 (d - 1) hgm
  have ha1 : (((hh * 60 + mi) * 60 + sec) * 1000 + ms) / 3600000 = hh := by omega
  have ha2 : (((hh * 60 + mi) * 60 + sec) * 1000 + ms) % 3600000
      = (mi * 60 + sec) * 1000 + ms := by omega
  have ha3 : ((mi * 60 + sec) * 1000 + ms) / 60000 = mi := by omega
  have ha4 : ((mi * 60 + sec) * 1000 + ms) % 60000 = sec * 1000 + ms := by omega
  have ha5 : (sec * 1000 + ms) / 1000 = sec := by omega
  have ha6 : (sec * 1000 + ms) % 1000 = ms := by omega
  unfold formatTime
  simp only [htod, Int.toNat_natCast, hn, hciv, hdiv, hfy, hfm, ha1, ha2, ha3,
    ha4, ha5, ha6, show 1 + (m - 1) = m from by omega,
    show d - 1 + 1 = d from by omega]



theorem parseTime_ok_shape (s : String) (t : Int) (h : parseTime s = .ok t) :
    ∃ y m d hh mi sec ms, validParts y m d hh mi sec ms
      ∧ t = timeFromParts y m d hh mi sec ms := by
  unfold parseTime at h
  split at h
  · split_ifs at h with h1 h2
    injection h with h'
    exact ⟨_, _, _, _, _, _, _, h2, h'.symm⟩
  · exact absurd h (by simp)

theorem parseTime_roundtrip (s : String) (t : Int) (h : parseTime s = .ok t) :
    parseTime (formatTime t) = .ok t := by
  obtain ⟨y, m, d, hh, mi, sec, ms, hv, rfl⟩ := parseTime_ok_shape s t h
  rw [formatTime_parts y m d hh mi sec ms hv]
  exact parseTime_mk y m d hh mi sec ms hv

theorem vBE_append_one (l : List Char) (c : Char) :
    vBE (l ++ [c]) = vBE l * 10 + charDigit c := by
  induction l with
  | nil => simp [vBE]
  | cons a l ih =>
    simp only [List.cons_append, vBE, ih, List.append_eq, List.length_append,
      List.length_cons, List.length_nil]
    ring

theorem vBE_rev_map (ds : List Nat) (h : ∀ x ∈ ds, x < 10) :
    vBE ((ds.map digitChar).reverse) = vLE ds := by
  induction ds with
  | nil => rfl
  | cons d ds ih =>
    simp only [List.map_cons, List.reverse_cons, vBE_append_one, vLE,
      ih fun x hx => h x (List.mem_cons_of_mem _ hx),
      charDigit_digitChar d (h d (List.mem_cons_self _ _))]
    omega

theorem digitsF_vLE : ∀ f n, n ≤ f → vLE (natDigitsF f n) = n := by
  intro f
  induction f with
  | zero => intro n h; interval_cases n; rfl
  | succ f ih =>
    intro n h
    cases n with
    | zero => rfl
    | succ n =>
      simp only [natDigitsF, vLE]
      rw [ih ((n + 1) / 10) (by omega)]
      omega

theorem digitsF_lt10 : ∀ f n, ∀ x ∈ natDigitsF f n, x < 10 := by
  intro f
  induction f with
  | zero => intro n x hx; simp [natDigitsF] at hx
  | succ f ih =>
    intro n x hx
    cases n with
    | zero => simp [natDigitsF] at hx
    | succ n =>
      simp only [natDigitsF, List.mem_cons] at hx
      rcases hx with rfl | hx
      · omega
      · exact ih _ _ hx

theorem digitsF_len : ∀ f n k, n < 10 ^ k → (natDigitsF f n).length ≤ k := by
  intro f
  induction f with
  | zero => intro n k _; simp [natDigitsF]
  | succ f ih =>
    intro n k hk
    cases n with
    | zero => simp [natDigitsF]
    | succ n =>
      cases k with
      | zero => simp at hk
      | succ k =>
        simp only [natDigitsF, List.length_cons]
        have := ih ((n + 1) / 10) k (by
          have : (10 : Nat) ^ (k + 1) = 10 ^ k * 10 := by ring
          omega)
        omega

theorem printNat_vBE (n : Nat) : vBE (printNat n) = n := by
  unfold printNat
  split_ifs with h
  · subst h; rfl
  · rw [List.map_reverse, vBE_rev_map _ (digitsF_lt10 n n)]
    exact digitsF_vLE n n le_rfl

theorem printNat_digits (n : Nat) : ∀ c ∈ printNat n, isDigitC c = true := by
  unfold printNat
  split_ifs with h
  · intro c hc
    simp at hc
    subst hc
    decide
  · intro c hc
    simp only [List.mem_map, List.mem_reverse] at hc
    obtain ⟨x, hx, rfl⟩ := hc
    exact isDigitC_digitChar x (digitsF_lt10 n n x hx)

theorem printNat_ne_nil (n : Nat) : printNat n ≠ [] := by
  unfold printNat
  split_ifs with h
  · simp
  · intro hc
    have h1 : natDigitsF n n = [] := by
      have hl := congrArg List.length hc
      simp at hl
      exact hl
    have h2 := digitsF_vLE n n le_rfl
    rw [h1] at h2
    simp [vLE] at h2
    exact h h2.symm

theorem printNat_len (n k : Nat) (h : n < 10 ^ k) (hk : 0 < k) :
    (printNat n).length ≤ k := by
  unfold printNat
  split_ifs with h0
  · simpa using hk
  · rw [List.length_map, List.length_reverse]
    exact digitsF_len n n k h



theorem vBE_zero_cons (cs : List Char) : vBE ('0' :: cs) = vBE cs := by
  simp only [vBE]
  have : charDigit '0' = 0 := by decide
  simp [this]

theorem vBE_padZeros (w : Nat) (l : List Char) : vBE (padZeros w l) = vBE l := by
  unfold padZeros
  induction (w - l.length) with
  | zero => simp
  | succ k ih => simpa [List.replicate_succ, vBE_zero_cons] using ih

theorem padZeros_digits (w : Nat) (l : List Char) (h : ∀ c ∈ l, isDigitC c = true) :
    ∀ c ∈ padZeros w l, isDigitC c = true := by
  intro c hc
  unfold padZeros at hc
  rw [List.mem_append] at hc
  rcases hc with hc | hc
  · rw [List.eq_of_mem_replicate hc]
    decide
  · exact h c hc

theorem padZeros_length (w : Nat) (l : List Char) (h : l.length ≤ w) :
    (padZeros w l).length = w := by
  unfold padZeros
  simp [List.length_append, List.length_replicate]
  omega

theorem takeDigits_append (l r : List Char) (hl : ∀ c ∈ l, isDigitC c = true) :
    takeDigits (l ++ r) = l ++ takeDigits r
    ∧ dropDigits (l ++ r) = dropDigits r := by
  induction l with
  | nil => simp [takeDigits, dropDigits]
  | cons a l ih =>
    have ha := hl a (List.mem_cons_self _ _)
    have := ih fun c hc => hl c (List.mem_cons_of_mem _ hc)
    simp only [List.cons_append, takeDigits, dropDigits, List.takeWhile_cons,
      List.dropWhile_cons, ha] at *
    simp [this.1, this.2]

theorem takeDigits_head_fail (c : Char) (cs : List Char) (h : isDigitC c = false) :
    takeDigits (c :: cs) = [] ∧ dropDigits (c :: cs) = c :: cs := by
  simp [takeDigits, dropDigits, List.takeWhile_cons, List.dropWhile_cons, h]

theorem takeDigits_nil : takeDigits [] = [] ∧ dropDigits [] = [] := by
  simp [takeDigits, dropDigits]

theorem splitSign_neg (cs : List Char) : splitSign ('-' :: cs) = (-1, cs) := rfl

theorem splitSign_digit (c : Char) (cs : List Char) (h : isDigitC c = true) :
    splitSign (c :: cs) = (1, c :: cs) := by
  have h1 : c ≠ '-' := by
    intro he
    subst he
    simp [isDigitC] at h
  have h2 : c ≠ '+' := by
    intro he
    subst he
    simp [isDigitC] at h
  unfold splitSign
  split
  · rename_i heq
    injection heq with he _
    exact absurd he h1
  · rename_i heq
    injection heq with he _
    exact absurd he h2
  · rfl



theorem num_cast_eq (q : ℚ) : (q.num : ℚ) = q * q.den := by
  have hden : (q.den : ℚ) ≠ 0 := by exact_mod_cast q.den_nz
  have h := Rat.num_div_den q
  rw [div_eq_iff hden] at h
  exact h

theorem qpow10_eq (q : ℚ) (s : Nat) : qpow10 q s = q * 10 ^ s := by
  have hden : (q.den : ℚ) ≠ 0 := by
    exact_mod_cast q.den_nz
  rw [qpow10, Rat.mkRat_eq_divInt, Rat.divInt_eq_div]
  push_cast
  rw [div_eq_iff hden, num_cast_eq]
  ring

theorem den_one_of_dvd (q : ℚ) (s : Nat) (h : q.den ∣ 10 ^ s) :
    (qpow10 q s).den = 1 := by
  obtain ⟨c, hc⟩ := h
  have hden : (q.den : ℚ) ≠ 0 := by exact_mod_cast q.den_nz
  have h10 : ((10 : ℚ) ^ s) = ((q.den : ℚ) * c) := by
    have hcast : ((10 ^ s : ℕ) : ℚ) = ((q.den * c : ℕ) : ℚ) := by rw [hc]
    push_cast at hcast
    exact hcast
  have hval : qpow10 q s = ((q.num * c : ℤ) : ℚ) := by
    rw [qpow10_eq, h10]
    push_cast
    rw [num_cast_eq]
    ring
  rw [hval, Rat.intCast_den]

theorem dvd_of_den_one (q : ℚ) (s : Nat) (h : (qpow10 q s).den = 1) :
    q.den ∣ 10 ^ s := by
  have hden : (q.den : ℚ) ≠ 0 := by exact_mod_cast q.den_nz
  have hz := Rat.coe_int_num_of_den_eq_one h
  set N := (qpow10 q s).num with hN
  rw [qpow10_eq] at hz
  have hq : (N : ℚ) * q.den = (q.num : ℚ) * 10 ^ s := by
    rw [hz, num_cast_eq]
    ring
  have hqz : N * (q.den : ℤ) = q.num * 10 ^ s := by
    exact_mod_cast hq
  have hdvdZ : (q.den : ℤ) ∣ q.num * 10 ^ s := ⟨N, by rw [← hqz]; ring⟩
  have hdvdN : q.den ∣ q.num.natAbs * 10 ^ s := by
    have habs := Int.natAbs_dvd_natAbs.mpr hdvdZ
    simpa [Int.natAbs_mul, Int.natAbs_pow] using habs
  exact Nat.Coprime.dvd_of_dvd_mul_left q.reduced.symm hdvdN

theorem exists_small_scale (q : ℚ) (s0 : Nat) (hdvd : q.den ∣ 10 ^ s0) :
    ∃ s ≤ q.den, q.den ∣ 10 ^ s := by
  have h10 : (10 : Nat) ^ s0 = 2 ^ s0 * 5 ^ s0 := by
    rw [← Nat.mul_pow]
  rw [h10] at hdvd
  obtain ⟨d2, d5, h2, h5, hprod⟩ := Nat.dvd_mul.mp hdvd
  obtain ⟨a, _, rfl⟩ := (Nat.dvd_prime_pow Nat.prime_two).mp h2
  obtain ⟨b, _, rfl⟩ := (Nat.dvd_prime_pow (by norm_num : Nat.Prime 5)).mp h5
  refine ⟨max a b, ?_, ?_⟩
  · have h2a : a < 2 ^ a := Nat.lt_two_pow a
    have h5b : b < 5 ^ b := Nat.lt_pow_self (by omega) b
    have hb1 : 1 ≤ 5 ^ b := Nat.one_le_pow _ _ (by omega)
    have ha1 : 1 ≤ 2 ^ a := Nat.one_le_pow _ _ (by omega)
    have hle2 : 2 ^ a ≤ 2 ^ a * 5 ^ b := Nat.le_mul_of_pos_right _ (by omega)
    have hle5 : 5 ^ b ≤ 2 ^ a * 5 ^ b := Nat.le_mul_of_pos_left _ (by omega)
    rw [← hprod]
    omega
  · rw [show (10 : Nat) ^ max a b = 2 ^ max a b * 5 ^ max a b from by
      rw [← Nat.mul_pow], ← hprod]
    exact Nat.mul_dvd_mul (pow_dvd_pow 2 (le_max_left a b))
      (pow_dvd_pow 5 (le_max_right a b))

theorem findScaleF_finds : ∀ (fuel s : Nat) (q : ℚ),
    (∃ j < fuel, (qpow10 q (s + j)).den = 1) →
    ∃ s', findScaleF fuel s q = some s' ∧ (qpow10 q s').den = 1 := by
  intro fuel
  induction fuel with
  | zero =>
    intro s q h
    obtain ⟨j, hj, _⟩ := h
    omega
  | succ f ih =>
    intro s q h
    by_cases h0 : (qpow10 q s).den = 1
    · exact ⟨s, by simp [findScaleF, h0], h0⟩
    · obtain ⟨j, hj, hP⟩ := h
      cases j with
      | zero => simp at hP; exact absurd hP h0
      | succ j =>
        obtain ⟨s', hs', hP'⟩ := ih (s + 1) q
          ⟨j, by omega, by rw [show s + 1 + j = s + (j + 1) from by omega]; exact hP⟩
        exact ⟨s', by simp [findScaleF, h0, hs'], hP'⟩

theorem decValue_zero_exp (sign : Int) (ip fp : List Char) :
    decValue sign ip fp 0
      = mkRat (sign * ((vBE ip * 10 ^ fp.length + vBE fp : Nat) : Int))
          (10 ^ fp.length) := by
  simp [decValue]

theorem decValue_shape (sign : Int) (ip fp : List Char) (e : Int) :
    ∃ z k, decValue sign ip fp e = mkRat z (10 ^ k) := by
  unfold decValue
  split_ifs with h
  · exact ⟨_, fp.length, rfl⟩
  · exact ⟨_, fp.length + (-e).toNat, by rw [pow_add]⟩

theorem mkRat_den_dvd (z : ℤ) (k : Nat) : (mkRat z (10 ^ k)).den ∣ 10 ^ k := by
  rw [Rat.mkRat_eq_divInt]
  have h := Rat.den_dvd z ((10 ^ k : ℕ) : ℤ)
  exact_mod_cast h

theorem parseDec_shape (s : String) (q : ℚ) (h : parseDec s = .ok q) :
    ∃ z k, q = mkRat z (10 ^ k) := by
  unfold parseDec at h
  split_ifs at h with h1
  split at h
  · exact absurd h (by simp)
  · injection h with h'
    subst h'
    exact decValue_shape _ _ _ _



theorem data_mk (l : List Char) : (⟨l⟩ : String).data = l := rfl

theorem isDigitC_dot : isDigitC '.' = false := by decide

theorem all_digits_take (l : List Char) (h : ∀ c ∈ l, isDigitC c = true) :
    takeDigits l = l ∧ dropDigits l = [] := by
  have h2 := takeDigits_append l [] h
  simpa [takeDigits, dropDigits] using h2

theorem mkRat_eq_of_mul (q : ℚ) (z : ℤ) (s : Nat) (h : q * 10 ^ s = (z : ℚ)) :
    mkRat z (10 ^ s) = q := by
  have h10 : ((10 : ℚ)) ^ s ≠ 0 := pow_ne_zero _ (by norm_num)
  rw [Rat.mkRat_eq_divInt, Rat.divInt_eq_div]
  push_cast
  rw [← h]
  field_simp

theorem parseDec_format_core (q : ℚ) (s : Nat)
    (hsome : findScaleF (q.den + 1) 0 q = some s)
    (hP : (qpow10 q s).den = 1) :
    parseDec (formatDec q) = .ok q := by
  have hq_val : q * 10 ^ s = (((qpow10 q s).num : ℤ) : ℚ) := by
    rw [← qpow10_eq]
    exact (Rat.coe_int_num_of_den_eq_one hP).symm
  set m := (qpow10 q s).num with hm
  set a := m.natAbs with ha2
  set ip := a / 10 ^ s with hip
  set fp := a % 10 ^ s with hfp2
  have hpow : 0 < 10 ^ s := pow_pos (by norm_num) s
  have hfp_lt : fp < 10 ^ s := Nat.mod_lt _ hpow
  have hip_fp : ip * 10 ^ s + fp = a := by
    have h0 := Nat.div_add_mod a (10 ^ s)
    rw [Nat.mul_comm] at h0
    exact h0
  have hfmt : formatDec q = ⟨(if m < 0 then ['-'] else []) ++ printNat ip
      ++ (if s = 0 then [] else '.' :: padZeros s (printNat fp))⟩ := by
    simp only [formatDec, hsome]
  rw [hfmt]
  obtain ⟨c0, cs0, hcons⟩ := List.exists_cons_of_ne_nil (printNat_ne_nil ip)
  have hc0 : isDigitC c0 = true := by
    apply printNat_digits ip
    rw [hcons]
    exact List.mem_cons_self _ _
  -- uniform description of the fraction digit block
  set FD : List Char := if s = 0 then [] else padZeros s (printNat fp) with hFD
  set FR : List Char := if s = 0 then [] else '.' :: padZeros s (printNat fp) with hFR
  have hFD_len : FD.length = s := by
    rw [hFD]
    rcases Nat.eq_zero_or_pos s with hs0 | hs0
    · simp [hs0]
    · rw [if_neg (by omega)]
      exact padZeros_length s (printNat fp) (printNat_len fp s hfp_lt hs0)
  have hFD_vBE : vBE FD = fp := by
    rw [hFD]
    rcases Nat.eq_zero_or_pos s with hs0 | hs0
    · have hfp0 : fp = 0 := by
        rw [hfp2, hs0]
        omega
      rw [if_pos hs0, hfp0]
      rfl
    · rw [if_neg (by omega), vBE_padZeros, printNat_vBE]
  have htail := takeDigits_append (printNat ip) FR (printNat_digits ip)
  have hFR_take : takeDigits FR = [] ∧ dropDigits FR = FR := by
    rw [hFR]
    rcases Nat.eq_zero_or_pos s with hs0 | hs0
    · simp [hs0, takeDigits, dropDigits]
    · rw [if_neg (by omega)]
      exact takeDigits_head_fail '.' _ isDigitC_dot
  have hfracOf : fracOf FR = FD := by
    rw [hFR, hFD]
    rcases Nat.eq_zero_or_pos s with hs0 | hs0
    · simp only [if_pos hs0]
      rfl
    · simp only [if_neg (show ¬ s = 0 from by omega)]
      rw [fracOf]
      exact (all_digits_take _ (padZeros_digits s (printNat fp)
        (printNat_digits fp))).1
  have hrestOf : restOf FR = [] := by
    rw [hFR]
    rcases Nat.eq_zero_or_pos s with hs0 | hs0
    · simp only [if_pos hs0]
      rfl
    · simp only [if_neg (show ¬ s = 0 from by omega)]
      rw [restOf]
      exact (all_digits_take _ (padZeros_digits s (printNat fp)
        (printNat_digits fp))).2
  have hval : decValue 1 (printNat ip) FD 0 = mkRat ((ip * 10 ^ s + fp : Nat) : Int) (10 ^ s)
      ∧ decValue (-1) (printNat ip) FD 0
        = mkRat (-((ip * 10 ^ s + fp : Nat) : Int)) (10 ^ s) := by
    constructor <;>
      rw [decValue_zero_exp, hFD_len, hFD_vBE, printNat_vBE] <;>
      congr 1 <;> push_cast <;> ring
  by_cases hneg : m < 0
  · rw [if_pos hneg]
    have hnorm : (['-'] ++ printNat ip) ++ FR = '-' :: (printNat ip ++ FR) := by
      simp
    have hsplit : splitSign ('-' :: (printNat ip ++ FR)) = (-1, printNat ip ++ FR) :=
      splitSign_neg _
    have htk : takeDigits (printNat ip ++ FR) = printNat ip := by
      rw [htail.1, hFR_take.1]
      simp
    have hdp : dropDigits (printNat ip ++ FR) = FR := by
      rw [htail.2, hFR_take.2]
    have hma : m = -((ip * 10 ^ s + fp : Nat) : Int) := by
      rw [hip_fp]
      omega
    simp only [parseDec, data_mk, hnorm, hsplit, htk, hdp, hfracOf, hrestOf]
    rw [if_neg (by simp [hcons])]
    simp only [expVal]
    rw [hval.2]
    exact congrArg Except.ok (mkRat_eq_of_mul q _ s (by rw [hq_val, hma]))
  · rw [if_neg hneg]
    have hnorm : (([] : List Char) ++ printNat ip) ++ FR = printNat ip ++ FR := by
      simp
    have hsplit : splitSign (printNat ip ++ FR) = (1, printNat ip ++ FR) := by
      rw [hcons, List.cons_append]
      exact splitSign_digit c0 (cs0 ++ FR) hc0
    have htk : takeDigits (printNat ip ++ FR) = printNat ip := by
      rw [htail.1, hFR_take.1]
      simp
    have hdp : dropDigits (printNat ip ++ FR) = FR := by
      rw [htail.2, hFR_take.2]
    have hma : m = ((ip * 10 ^ s + fp : Nat) : Int) := by
      rw [hip_fp]
      omega
    simp only [parseDec, data_mk, hnorm, hsplit, htk, hdp, hfracOf, hrestOf]
    rw [if_neg (by simp [hcons])]
    simp only [expVal]
    rw [hval.1]
    exact congrArg Except.ok (mkRat_eq_of_mul q _ s (by rw [hq_val, hma]))



theorem parseDec_roundtrip (str : String) (q : ℚ) (h : parseDec str = .ok q) :
    parseDec (formatDec q) = .ok q := by
  obtain ⟨z, k, hq⟩ := parseDec_shape str q h
  have hdvd : q.den ∣ 10 ^ k := by rw [hq]; exact mkRat_den_dvd z k
  obtain ⟨s0, hs0le, hs0⟩ := exists_small_scale q k hdvd
  obtain ⟨s, hsome, hP⟩ := findScaleF_finds (q.den + 1) 0 q
    ⟨s0, by omega, by simpa using den_one_of_dvd q s0 hs0⟩
  exact parseDec_format_core q s hsome hP

theorem parseOptDec_roundtrip (str : String) (o : Option ℚ)
    (h : parseOptDec str = .ok o) :
    parseOptDec (formatOptDec o) = .ok o := by
  unfold parseOptDec at h
  split_ifs at h with he
  · injection h with h'
    subst h'
    rfl
  · split at h
    · rename_i q' hq'
      injection h with h'
      subst h'
      have hrt := parseDec_roundtrip str q' hq'
      have hfo : formatOptDec (some q') = formatDec q' := rfl
      rw [hfo]
      unfold parseOptDec
      split_ifs with hf
      · have hpe : parseDec "" = Except.error "invalid decimal" := by decide
        rw [hf, hpe] at hrt
        simp at hrt
      · rw [hrt]
    · exact absurd h (by simp)

theorem parseType_label (t : TaxBitRecType) : parseType t.label = .ok t := by
  cases t <;> rfl

theorem de_se_bool (b : Bool) :
    de_string_true_false_to_bool (se_bool_to_uppercase_string_true_false b)
      = .ok b := by
  cases b <;> decide

theorem parseRec_roundtrip (row : Row) (rec : TaxBitExportRec)
    (h : parseRec row = .ok rec) :
    parseRec (serializeRec rec) = .ok rec := by
  unfold parseRec at h
  split at h
  · simp at h
  rename_i t ht
  split at h
  · simp at h
  rename_i ty hty
  split at h
  · simp at h
  rename_i rq hrq
  split at h
  · simp at h
  rename_i sq hsq
  split at h
  · simp at h
  rename_i fa hfa
  split at h
  · simp at h
  rename_i mv hmv
  split at h
  · simp at h
  rename_i it hit
  injection h with h'
  subst h'
  unfold parseRec
  simp only [serializeRec, parseTime_roundtrip row.date t ht, parseType_label,
    parseOptDec_roundtrip _ _ hrq, parseOptDec_roundtrip _ _ hsq,
    parseOptDec_roundtrip _ _ hfa, parseOptDec_roundtrip _ _ hmv,
    de_se_bool]

/-- C6: for every syntactically valid input row, serializing the parsed
record and re-parsing the serialized row yields a record equal to the
original parse (values re-render in canonical form, so equality is of
records, not of row text). -/
theorem c6_serialize_parse_roundtrip (row : Row) (rec : TaxBitExportRec)
    (h : parseRec row = .ok rec) :
    parseRec (serializeRec rec) = .ok rec :=
  parseRec_roundtrip row rec h

/-- C6 (witness): the round-trip applied to the concrete scenario row. -/
theorem c6_witness : parseRec (serializeRec scenarioRec) = .ok scenarioRec :=
  c6_serialize_parse_roundtrip scenarioRow scenarioRec (by decide)

end TaxBitExport
